import Mathlib

/-!
Shallow embedding of the asset pipeline of `cli.js` from the
WebPageToCCode repository.

Strings are modelled as Lean `String`s and manipulated through their
underlying character lists, mirroring the JavaScript string primitives
(`endsWith`, `split`, `includes`, `toUpperCase` plus `replace`) used by
the source.  JavaScript's `toUpperCase` is modelled on the ASCII range
(core's `Char.toUpper`), which agrees with JavaScript on ASCII strings.
Node `Buffer`s (file contents) are modelled as `List Nat` of byte values.
Each `promises.appendFile` call of the source is modelled as one element
of a `List String` of emitted chunks, in call order; a `Bool` flag records
whether the modelled function ran to completion (`false` marks the point
where the JavaScript code throws).
-/

/-- Character list of the compression suffix literal `".gz"`. -/
def gzChars : List Char := ['.', 'g', 'z']

/-- JavaScript `s.endsWith(suf)`. -/
def jsEndsWith (s suf : String) : Bool :=
  suf.data.isSuffixOf s.data

/-- JavaScript `s.startsWith(p)` (used to classify emitted chunks). -/
def jsStartsWith (s p : String) : Bool :=
  p.data.isPrefixOf s.data

/-- Index of the first occurrence of `pat` in a character list, if any. -/
def firstOcc (pat : List Char) : List Char → Option Nat
  | [] => if pat.isPrefixOf ([] : List Char) then some 0 else none
  | c :: rest =>
    if pat.isPrefixOf (c :: rest) then some 0
    else (firstOcc pat rest).map (· + 1)

/-- JavaScript `s.split(sep)[0]`: the part of `s` before the first
occurrence of `sep`, or all of `s` when `sep` does not occur. -/
def jsSplitHead (s sep : String) : String :=
  match firstOcc sep.data s.data with
  | none => s
  | some i => ⟨s.data.take i⟩

/-- Whether `pat` occurs anywhere in `s` (substring test). -/
def containsSub (s pat : String) : Bool :=
  (firstOcc pat.data s.data).isSome

/-- The spec's "logical name": the stored file name with one trailing
`".gz"` compression suffix stripped (the name unchanged otherwise).
This follows the specification's wording, to be compared with the
source's `split('.gz')[0]` computation. -/
def stripGz (s : String) : String :=
  if jsEndsWith s ".gz" then ⟨s.data.take (s.data.length - 3)⟩ else s

/-- ASCII uppercasing of one character, as JavaScript `toUpperCase`
acts on ASCII input (and as core's `Char.toUpper`). -/
def jsToUpperChar (c : Char) : Char :=
  if 97 ≤ c.toNat ∧ c.toNat ≤ 122 then Char.ofNat (c.toNat - 32) else c

/-- Membership in the regex character class `[a-zA-Z0-9]`. -/
def isAsciiAlnum (c : Char) : Bool :=
  decide ((65 ≤ c.toNat ∧ c.toNat ≤ 90) ∨ (97 ≤ c.toNat ∧ c.toNat ≤ 122)
    ∨ (48 ≤ c.toNat ∧ c.toNat ≤ 57))

/-- Per-character action of `formatName`: uppercase, then replace
anything matching `[^a-zA-Z0-9]` by `'_'`. -/
def formatChar (c : Char) : Char :=
  let u := jsToUpperChar c
  if isAsciiAlnum u then u else '_'

/-- `formatName` from `cli.js` (lines 141-143):
`fileName.toUpperCase().replace(/[^a-zA-Z0-9]/g, '_')`, applied per
character. -/
def formatName (fileName : String) : String :=
  ⟨fileName.data.map formatChar⟩

/-- Characters allowed in the identifiers the generator declares:
uppercase letters, digits, underscore. -/
def isIdentChar (c : Char) : Bool :=
  decide ((65 ≤ c.toNat ∧ c.toNat ≤ 90) ∨ (48 ≤ c.toNat ∧ c.toNat ≤ 57)
    ∨ c = '_')

/-- Extension lookup table: a fragment of the `mime` npm package's
database, covering the types exercised here. -/
def mimeTable : List (String × String) :=
  [("html", "text/html"), ("css", "text/css"),
   ("js", "application/javascript"), ("json", "application/json"),
   ("png", "image/png"), ("jpg", "image/jpeg"), ("txt", "text/plain"),
   ("svg", "image/svg+xml"), ("ico", "image/x-icon"),
   ("gz", "application/gzip")]

/-- The characters of `s` after its last `'.'` (all of `s` when it has
no dot), as in the `mime` package's extension extraction for bare file
names (the source only ever passes slash-free directory-entry names). -/
def afterLastDot (s : String) : String :=
  ⟨(s.data.reverse.takeWhile (fun c => c ≠ '.')).reverse⟩

/-- Model of `mime.getType` from the `mime` npm package: look up the
lowercased extension in the type table, `none` for unknown extensions
(JavaScript `null`). -/
def mimeGetType (path : String) : Option String :=
  mimeTable.lookup ⟨(afterLastDot path).data.map Char.toLower⟩

/-- One entry of the list returned by `getFiles`:
`{file: string, mime: string}` (`mime` may be JavaScript `null`). -/
structure Asset where
  file : String
  mime : Option String
deriving DecidableEq

/-- A source tree: a file with its byte content, or a directory with a
`readdir`-ordered list of (name, subtree) entries. -/
inductive FSTree where
  | file (content : List Nat) : FSTree
  | dir (entries : List (String × FSTree)) : FSTree

/-- The `readdir` filter of `getFiles` (`cli.js` line 114): keep `item`
when it ends with `.gz` or the directory has no `item ++ ".gz"` entry.
`allNames` is the unfiltered name list (`arr` in the source). -/
def keepEntry (allNames : List String) (item : String) : Bool :=
  jsEndsWith item ".gz" || !(allNames.contains (item ++ ".gz"))

/-- Content-type computed by `getFiles` for a kept file entry
(`cli.js` lines 126-130): `mime.getType(file.split('.gz')[0])` for a
name ending in `.gz`, otherwise `mime.getType(file)`. -/
def mimeOfEntry (file : String) : Option String :=
  if jsEndsWith file ".gz" then mimeGetType (jsSplitHead file ".gz")
  else mimeGetType file

mutual

/-- `getFiles` from `cli.js` (lines 108-134) on a modelled source tree:
filter the directory listing, then, per kept entry in order, recurse
into directories (prefixing the directory name) or record the file with
its content type. -/
def getFiles : FSTree → List Asset
  | FSTree.file _ => []
  | FSTree.dir entries => getFilesAux (entries.map Prod.fst) entries

/-- Loop of `getFiles` over the directory entries; `allNames` is the
full unfiltered listing used by the sibling filter. -/
def getFilesAux : List String → List (String × FSTree) → List Asset
  | _, [] => []
  | allNames, (name, FSTree.file _) :: rest =>
    (if keepEntry allNames name then [⟨name, mimeOfEntry name⟩] else [])
      ++ getFilesAux allNames rest
  | allNames, (name, FSTree.dir sub) :: rest =>
    (if keepEntry allNames name then
      (getFiles (FSTree.dir sub)).map (fun a => ⟨name ++ "/" ++ a.file, a.mime⟩)
     else [])
      ++ getFilesAux allNames rest

end

/-- Hex digit character as produced by JavaScript `n.toString(16)`
(lowercase). Defined for `n < 16`. -/
def hexDigitChar (n : Nat) : Char :=
  if n < 10 then Char.ofNat (48 + n) else Char.ofNat (87 + n)

/-- Digit expansion used by `toString(16)`: most significant first,
empty for `0`. -/
def hexDigitsAux : Nat → List Char
  | 0 => []
  | n + 1 => hexDigitsAux ((n + 1) / 16) ++ [hexDigitChar ((n + 1) % 16)]
decreasing_by exact Nat.div_lt_self (Nat.succ_pos n) (by decide)

/-- JavaScript `n.toString(16)` for a natural number. -/
def jsToStringBase16 (n : Nat) : String :=
  if n = 0 then "0" else ⟨hexDigitsAux n⟩

/-- Numeric value of a lowercase hex digit character (`0` on junk). -/
def hexCharVal (c : Char) : Nat :=
  if 48 ≤ c.toNat ∧ c.toNat ≤ 57 then c.toNat - 48
  else if 97 ≤ c.toNat ∧ c.toNat ≤ 102 then c.toNat - 87
  else 0

/-- Whether `c` is a lowercase hexadecimal digit character. -/
def isHexDigitChar (c : Char) : Bool :=
  decide ((48 ≤ c.toNat ∧ c.toNat ≤ 57) ∨ (97 ≤ c.toNat ∧ c.toNat ≤ 102))

/-- Value of a hex digit string, most significant digit first. -/
def parseHexChars (l : List Char) : Nat :=
  l.foldl (fun acc c => 16 * acc + hexCharVal c) 0

/-- Decoder for one emitted byte chunk: strip the `0x` mark, read the
hex digits that follow, and return their value. -/
def decodeByteChunk (s : String) : Option Nat :=
  if jsStartsWith s "0x" then
    some (parseHexChars ((s.data.drop 2).takeWhile isHexDigitChar))
  else none

/-- `writeFileData` from `cli.js` (lines 153-182): the length constant,
the (framework-dependent) array opener, one chunk per byte of
`data.slice(0, -1)`, then the final chunk built from `data[length-1]`.
For empty `data` the JavaScript expression `data[length-1]` is
`undefined` and `.toString(16)` throws a `TypeError`: the model returns
the chunks appended before that point together with `false`. -/
def writeFileData (framework fileName : String) (data : List Nat) : List String × Bool :=
  let name := formatName fileName
  let lenChunk := "const size_t " ++ name ++ "_Length = " ++ toString data.length ++ ";\n"
  let opener :=
    if framework == "esp-idf" then "const char " ++ name ++ "[] = \x7b\n"
    else "const char " ++ name ++ "[] PROGMEM = \x7b\n"
  match data.getLast? with
  | none => ([lenChunk, opener], false)
  | some lastByte =>
    ([lenChunk, opener]
      ++ data.dropLast.map (fun b => "0x" ++ jsToStringBase16 b ++ ", ")
      ++ ["0x" ++ jsToStringBase16 lastByte ++ "\n\x7d;\n\n"], true)

/-- `writeFunctions` from `cli.js` (lines 191-221): the per-asset
route-serving unit. The guard on line 192 silently emits nothing when
the mime type is JavaScript `null`. -/
def writeFunctions (framework fileName : String) (mimetype : Option String) : List String :=
  match mimetype with
  | none => []
  | some m =>
    let name := formatName fileName
    if framework == "esp-idf" then
      ["struct web_content st_" ++ name ++ " = \x7b\n",
       "  .length = " ++ name ++ "_Length,\n",
       "  .data = " ++ name ++ ",\n",
       "  .compression = " ++ (if jsEndsWith fileName ".gz" then "true" else "false") ++ ",\n",
       "  .content_type = \"" ++ m ++ "\"\n\x7d;\n\n"]
    else
      ["void " ++ name ++ "Page() \x7b\n"]
        ++ (if jsEndsWith fileName ".gz" then
              ["  server.sendHeader(\"Content-Encoding\", \"gzip\");\n"]
            else [])
        ++ ["  server.send_P(200, \"" ++ m ++ "\", " ++ name ++ ", " ++ name ++ "_Length);\n\x7d\n\n"]

/-- `writeRegisterFunction` from `cli.js` (lines 229-284). In the
esp-idf branch the `register` string is accumulated across the loop and
appended once at the end, after the per-file `httpd_uri_t` chunks. In
the default (arduino) branch the opener is appended before the loop and
each registration statement is appended with a trailing `\x7d` on the
same chunk; no closing chunk follows the loop. -/
def writeRegisterFunction (framework : String) (fileNames : List String) : List String :=
  if framework == "esp-idf" then
    let uriChunks := fileNames.flatMap (fun file =>
      let name := formatName file
      let w := jsSplitHead file ".gz"
      (if w == "index.html" then
        ["httpd_uri_t index_html_Page = \x7b\n",
         "  .uri       = \"/\",\n",
         "  .method    = HTTP_GET,\n",
         "  .handler   = website_content_handler,\n",
         "  .user_ctx  = &st_" ++ name ++ "\n\x7d;\n\n"]
       else []) ++
      ["httpd_uri_t " ++ name ++ "Page = \x7b\n",
       "  .uri       = \"/" ++ w ++ "\",\n",
       "  .method    = HTTP_GET,\n",
       "  .handler   = website_content_handler,\n",
       "  .user_ctx  = &st_" ++ name ++ "\n\x7d;\n\n"])
    let register := "void registerWebsite(httpd_handle_t server) \x7b\n"
      ++ String.join (fileNames.map (fun file =>
          let name := formatName file
          let w := jsSplitHead file ".gz"
          (if w == "index.html" then
            "  httpd_register_uri_handler(server, &index_html_Page);\n"
           else "")
          ++ "  httpd_register_uri_handler(server, &" ++ name ++ "Page);\n"))
      ++ "\x7d\n\n"
    uriChunks ++ [register]
  else
    ["void registerWebsite() \x7b\n"]
      ++ fileNames.flatMap (fun file =>
        let name := formatName file
        let w := jsSplitHead file ".gz"
        (if w == "index.html" then ["  server.on(\"/\", " ++ name ++ "Page);\n"] else [])
          ++ ["  server.on(\"/" ++ w ++ "\", " ++ name ++ "Page);\n\x7d\n"])

/-- One deduplicated asset as consumed by `main`'s emission loops:
its stored name, its resolved content type, and its bytes on disk. -/
structure SrcFile where
  name : String
  mime : Option String
  bytes : List Nat
deriving DecidableEq

/-- First emission loop of `main` (`cli.js` lines 330-332): byte arrays
for every asset, in order. A thrown `TypeError` (empty file) aborts the
run: later assets are not processed and the flag is `false`. -/
def writeAllFileData (framework : String) : List SrcFile → List String × Bool
  | [] => ([], true)
  | f :: rest =>
    let r := writeFileData framework f.name f.bytes
    if r.2 then
      let rr := writeAllFileData framework rest
      (r.1 ++ rr.1, rr.2)
    else (r.1, false)

/-- Emission sequence of `main` (`cli.js` lines 329-339) over the
deduplicated asset list: all byte arrays, then all route-serving units,
then the registration function. An abort in the first loop (caught by
`main`'s `try`/`catch`) discards the remaining emission. -/
def mainChunks (framework : String) (files : List SrcFile) : List String × Bool :=
  let d := writeAllFileData framework files
  if d.2 then
    (d.1 ++ files.flatMap (fun f => writeFunctions framework f.name f.mime)
        ++ writeRegisterFunction framework (files.map (fun f => f.name)), true)
  else (d.1, false)

/-- Chunk classifier: a byte-array declaration (array opener). -/
def isByteArrayDecl (chunk : String) : Bool :=
  jsStartsWith chunk "const char "

/-- Chunk classifier: the opening of a route-serving unit
(`void <NAME>Page() \x7b`). -/
def isServingUnit (chunk : String) : Bool :=
  jsStartsWith chunk "void " && jsEndsWith chunk "Page() \x7b\n"

/-- Chunk classifier: an arduino registration statement (`server.on`). -/
def isRegisterStmt (chunk : String) : Bool :=
  jsStartsWith chunk "  server.on("

/-- Chunk classifier: the opener of the aggregate registration
function in the arduino branch. -/
def isRegisterOpener (chunk : String) : Bool :=
  chunk == "void registerWebsite() \x7b\n"

/-- Parse an arduino `server.on("<path>", <handler>);` chunk into its
bound path and handler name. -/
def parseServerOn (chunk : String) : Option (String × String) :=
  if jsStartsWith chunk "  server.on(\"" then
    let rest := chunk.data.drop 13
    let path := rest.takeWhile (fun c => c ≠ '"')
    let rest2 := rest.drop path.length
    if rest2.take 3 = ['"', ',', ' '] then
      some (⟨path⟩, ⟨(rest2.drop 3).takeWhile (fun c => c ≠ ')')⟩)
    else none
  else none

/-- The route bindings created by the emitted arduino registration
code: every `server.on` statement's (path, handler) pair. -/
def registerRoutes (fileNames : List String) : List (String × String) :=
  (writeRegisterFunction "arduino" fileNames).filterMap parseServerOn

/-!
## Supporting lemmas
-/

/-- `Char.ofNat` on a scalar value below the surrogate range round-trips
through `toNat`. -/
theorem charToNat_ofNat {n : Nat} (h : n < 55296) : (Char.ofNat n).toNat = n := by
  have hv : n.isValidChar := Or.inl h
  simp [Char.ofNat, hv, Char.ofNatAux, Char.toNat, UInt32.toNat, BitVec.toNat_ofNatLt]

/-- Every character produced by `formatChar` is an identifier
character. -/
theorem formatChar_ident (c : Char) : isIdentChar (formatChar c) = true := by
  show isIdentChar
    (if isAsciiAlnum (jsToUpperChar c) = true then jsToUpperChar c else '_') = true
  by_cases h : 97 ≤ c.toNat ∧ c.toNat ≤ 122
  · have h32 : c.toNat - 32 < 55296 := by omega
    have ht := charToNat_ofNat h32
    have hu : jsToUpperChar c = Char.ofNat (c.toNat - 32) := by
      unfold jsToUpperChar
      rw [if_pos h]
    have halnum : isAsciiAlnum (jsToUpperChar c) = true := by
      rw [hu]
      unfold isAsciiAlnum
      rw [ht]
      simp only [decide_eq_true_eq]
      omega
    rw [if_pos halnum, hu]
    unfold isIdentChar
    rw [ht]
    simp only [decide_eq_true_eq]
    exact Or.inl (by omega)
  · have hu : jsToUpperChar c = c := by
      unfold jsToUpperChar
      rw [if_neg h]
    rw [hu]
    by_cases ha : isAsciiAlnum c = true
    · rw [if_pos ha]
      unfold isAsciiAlnum at ha
      unfold isIdentChar
      simp only [decide_eq_true_eq] at ha ⊢
      rcases ha with h1 | h1 | h1
      · exact Or.inl h1
      · exact absurd h1 h
      · exact Or.inr (Or.inl h1)
    · rw [if_neg ha]
      decide

/-!
## C9 — identifier formatter
-/

/-- C9 (amended): `formatName` is a total pure function whose result
uses only characters from `[A-Z0-9_]` and is empty exactly when the
input is empty; it does not always avoid a leading digit. -/
theorem formatName_ident_chars (s : String) :
    (∀ c ∈ (formatName s).data, isIdentChar c = true)
    ∧ ((formatName s).data = [] ↔ s.data = []) := by
  constructor
  · intro c hc
    unfold formatName at hc
    simp only [List.mem_map] at hc
    obtain ⟨d, _, rfl⟩ := hc
    exact formatChar_ident d
  · unfold formatName
    simp

/-- C9 counterexample: `formatName "404.html"` begins with the digit
`'4'`, so the result is not a valid C/C++ identifier. -/
theorem formatName_leading_digit_counterexample :
    formatName "404.html" = "404_HTML"
    ∧ "404_HTML".data.head? = some '4'
    ∧ (48 ≤ '4'.toNat ∧ '4'.toNat ≤ 57) := by decide

/-!
## C4 / C3 — asset encoder on empty and non-empty contents
-/

/-- C4: on a zero-length file, `writeFileData` evaluates
`data[length-1].toString(16)` with `data[length-1] = undefined` and
throws, after appending the length constant and the array opener; the
encoding step fails rather than emitting an empty array. -/
theorem writeFileData_empty_throws (framework fileName : String) :
    (writeFileData framework fileName []).2 = false := by
  unfold writeFileData
  rfl

/-- C3 counterexample: for the zero-length content the encoder does not
emit an empty byte-array declaration of length 0 — it aborts after the
two header chunks, leaving the array literal unterminated. -/
theorem writeFileData_empty_counterexample :
    writeFileData "arduino" "empty.css" []
      = (["const size_t EMPTY_CSS_Length = 0;\n",
          "const char EMPTY_CSS[] PROGMEM = \x7b\n"], false) := by decide

/-!
## C6 — registration function braces (arduino branch)
-/

/-- C6: with zero assets the arduino `registerWebsite` emission opens a
brace and never closes it, and with two assets it emits one opening and
two closing braces; the emitted function is not brace-balanced. -/
theorem registerWebsite_braces_unbalanced :
    writeRegisterFunction "arduino" [] = ["void registerWebsite() \x7b\n"]
    ∧ (String.join (writeRegisterFunction "arduino" [])).data.count '\x7b' = 1
    ∧ (String.join (writeRegisterFunction "arduino" [])).data.count '\x7d' = 0
    ∧ (String.join (writeRegisterFunction "arduino" ["a.html", "b.html"])).data.count '\x7b' = 1
    ∧ (String.join (writeRegisterFunction "arduino" ["a.html", "b.html"])).data.count '\x7d' = 2 := by
  decide

/-!
## Counterexamples to the content-type claims (C1, C7)
-/

/-- C1 counterexample: with both `x.gz.html` and `x.gz.html.gz` present,
the walker keeps exactly the compressed file, but — because
`split('.gz')[0]` cuts at the first `.gz` occurrence — its content type
is `mime.getType("x")` (JavaScript `null`), not the type
`text/html` of the uncompressed name `x.gz.html`. -/
theorem dedup_content_type_counterexample :
    getFiles (FSTree.dir [("x.gz.html", FSTree.file []), ("x.gz.html.gz", FSTree.file [1])])
      = [⟨"x.gz.html.gz", none⟩]
    ∧ mimeGetType "x.gz.html" = some "text/html" := by decide

/-- C7 counterexample: the compressed asset `x.gz.html.gz` is emitted
with content type `mime.getType("x")` (JavaScript `null`), not the
`text/html` derived from its suffix-stripped name `x.gz.html`. -/
theorem compressed_content_type_counterexample :
    getFiles (FSTree.dir [("x.gz.html.gz", FSTree.file [2])]) = [⟨"x.gz.html.gz", none⟩]
    ∧ stripGz "x.gz.html.gz" = "x.gz.html"
    ∧ mimeGetType "x.gz.html" = some "text/html" := by decide

/-!
## C2 counterexample — root route without a root index.html asset
-/

/-- C2 counterexample: the single asset `index.html.gz.gz` survives
deduplication, its logical (suffix-stripped) name is `index.html.gz`,
yet the emitted arduino registration binds a route to `/` because
`split('.gz')[0]` cuts at the first `.gz` occurrence. -/
theorem root_route_counterexample :
    getFiles (FSTree.dir [("index.html.gz.gz", FSTree.file [1])])
      = [⟨"index.html.gz.gz", some "text/html"⟩]
    ∧ ("/", "INDEX_HTML_GZ_GZPage") ∈ registerRoutes ["index.html.gz.gz"]
    ∧ stripGz "index.html.gz.gz" ≠ "index.html" := by decide

/-!
## C8 — unknown content type handled inconsistently per call
-/

/-- C8: for an asset whose extension resolves to no MIME type the run
emits its byte array and its registration statement but silently skips
its route-serving unit — the exact per-call inconsistency the
specification rules out. -/
theorem unknown_mime_inconsistency :
    mimeGetType "data.xyz" = none
    ∧ (mainChunks "arduino" [⟨"data.xyz", none, [7]⟩]).2 = true
    ∧ (mainChunks "arduino" [⟨"data.xyz", none, [7]⟩]).1.countP (fun c => isByteArrayDecl c) = 1
    ∧ (mainChunks "arduino" [⟨"data.xyz", none, [7]⟩]).1.countP (fun c => isServingUnit c) = 0
    ∧ "  server.on(\"/data.xyz\", DATA_XYZPage);\n\x7d\n"
        ∈ (mainChunks "arduino" [⟨"data.xyz", none, [7]⟩]).1 := by decide

/-- C5 counterexample: for the one-asset list whose content type is
unresolved, the generated chunks contain one byte-array declaration but
zero route-serving units, so the counts are not all equal to the list
size. -/
theorem completeness_counterexample :
    (mainChunks "arduino" [⟨"data.xyz", none, [7]⟩]).1.countP (fun c => isByteArrayDecl c) = 1
    ∧ (mainChunks "arduino" [⟨"data.xyz", none, [7]⟩]).1.countP (fun c => isServingUnit c) = 0
    ∧ ([(⟨"data.xyz", none, [7]⟩ : SrcFile)]).length = 1 := by decide

/-!
## C10 — sibling filter applies before the directory check
-/

/-- Helper: an entry whose name has a `.gz` sibling in the listing and
does not itself end in `.gz` contributes nothing to the walk, whatever
kind of entry it is. -/
theorem getFilesAux_drops_gz_sibling (allNames : List String)
    (pre post : List (String × FSTree)) (D : String) (t : FSTree)
    (h1 : jsEndsWith D ".gz" = false)
    (h2 : allNames.contains (D ++ ".gz") = true) :
    getFilesAux allNames (pre ++ (D, t) :: post) = getFilesAux allNames (pre ++ post) := by
  have hk : keepEntry allNames D = false := by
    unfold keepEntry
    rw [h1, h2]
    rfl
  induction pre with
  | nil =>
    simp only [List.nil_append]
    cases t with
    | file c => simp [getFilesAux, hk]
    | dir sub => simp [getFilesAux, hk]
  | cons e rest ih =>
    obtain ⟨n, tt⟩ := e
    cases tt with
    | file c => simp [getFilesAux, ih]
    | dir sub => simp [getFilesAux, ih]

/-- C10: the compressed-sibling filter is applied to the raw directory
listing before each entry's type is checked, so an entry `D` with a
sibling `D ++ ".gz"` is dropped entirely — when `D` is a directory, its
whole subtree is omitted from the asset list. -/
theorem getFiles_gz_sibling_drops_directory
    (pre post : List (String × FSTree)) (D : String) (t : FSTree)
    (h1 : jsEndsWith D ".gz" = false)
    (h2 : ((pre ++ (D, t) :: post).map Prod.fst).contains (D ++ ".gz") = true) :
    getFiles (FSTree.dir (pre ++ (D, t) :: post))
      = getFilesAux ((pre ++ (D, t) :: post).map Prod.fst) (pre ++ post) := by
  show getFilesAux ((pre ++ (D, t) :: post).map Prod.fst) (pre ++ (D, t) :: post)
    = getFilesAux ((pre ++ (D, t) :: post).map Prod.fst) (pre ++ post)
  exact getFilesAux_drops_gz_sibling _ pre post D t h1 h2

/-- C10 witness: the directory `assets` (holding `app.js`) sits next to
a file `assets.gz`; the walk of the whole tree equals the walk that
omits the `assets` entry (and thus `app.js`) entirely. -/
theorem getFiles_gz_sibling_drops_directory_witness :
    jsEndsWith "assets" ".gz" = false
    ∧ getFiles (FSTree.dir [("assets", FSTree.dir [("app.js", FSTree.file [1, 2])]),
        ("assets.gz", FSTree.file [3])])
      = getFilesAux (([("assets", FSTree.dir [("app.js", FSTree.file [1, 2])]),
          ("assets.gz", FSTree.file [3])] : List (String × FSTree)).map Prod.fst)
          [("assets.gz", FSTree.file [3])] :=
  ⟨by decide,
    getFiles_gz_sibling_drops_directory []
      [("assets.gz", FSTree.file [3])] "assets"
      (FSTree.dir [("app.js", FSTree.file [1, 2])]) (by decide) (by decide)⟩

/-!
## C3 — byte-exact encoding (non-empty contents)
-/

theorem hexDigitChar_val {m : Nat} (h : m < 16) :
    hexCharVal (hexDigitChar m) = m ∧ isHexDigitChar (hexDigitChar m) = true := by
  interval_cases m <;> decide

theorem parseHexChars_append_one (l : List Char) (d : Char) :
    parseHexChars (l ++ [d]) = 16 * parseHexChars l + hexCharVal d := by
  simp [parseHexChars, List.foldl_append]

theorem parseHex_hexDigitsAux (n : Nat) : parseHexChars (hexDigitsAux n) = n := by
  induction n using Nat.strong_induction_on with
  | _ n ih =>
    match n with
    | 0 => simp [hexDigitsAux, parseHexChars]
    | m + 1 =>
      have hdiv : (m + 1) / 16 < m + 1 := Nat.div_lt_self (Nat.succ_pos m) (by decide)
      have hmod : (m + 1) % 16 < 16 := Nat.mod_lt _ (by decide)
      rw [hexDigitsAux, parseHexChars_append_one, ih _ hdiv, (hexDigitChar_val hmod).1]
      omega

theorem hexDigitsAux_all_hex (n : Nat) :
    ∀ c ∈ hexDigitsAux n, isHexDigitChar c = true := by
  induction n using Nat.strong_induction_on with
  | _ n ih =>
    match n with
    | 0 => simp [hexDigitsAux]
    | m + 1 =>
      have hdiv : (m + 1) / 16 < m + 1 := Nat.div_lt_self (Nat.succ_pos m) (by decide)
      have hmod : (m + 1) % 16 < 16 := Nat.mod_lt _ (by decide)
      rw [hexDigitsAux]
      intro c hc
      rcases List.mem_append.mp hc with h1 | h1
      · exact ih _ hdiv c h1
      · rw [List.mem_singleton.mp h1]
        exact (hexDigitChar_val hmod).2

theorem jsToStringBase16_parse (n : Nat) :
    parseHexChars (jsToStringBase16 n).data = n
    ∧ ∀ c ∈ (jsToStringBase16 n).data, isHexDigitChar c = true := by
  by_cases h : n = 0
  · subst h
    constructor
    · decide
    · decide
  · unfold jsToStringBase16
    rw [if_neg h]
    exact ⟨parseHex_hexDigitsAux n, hexDigitsAux_all_hex n⟩

theorem takeWhile_all_append (p : Char → Bool) (l1 l2 : List Char)
    (h : ∀ c ∈ l1, p c = true) :
    (l1 ++ l2).takeWhile p = l1 ++ l2.takeWhile p := by
  induction l1 with
  | nil => simp
  | cons c rest ih =>
    have hc : p c = true := h c (List.mem_cons_self c rest)
    simp only [List.cons_append, List.takeWhile_cons, hc, if_true]
    rw [ih (fun d hd => h d (List.mem_cons_of_mem c hd))]

theorem decodeByteChunk_encode (b : Nat) (tail : String)
    (ht : tail.data.takeWhile isHexDigitChar = []) :
    decodeByteChunk ("0x" ++ jsToStringBase16 b ++ tail) = some b := by
  have hdata : ("0x" ++ jsToStringBase16 b ++ tail).data
      = ['0', 'x'] ++ ((jsToStringBase16 b).data ++ tail.data) := by
    simp [String.data_append]
  unfold decodeByteChunk jsStartsWith
  rw [hdata]
  have hpref : "0x".data.isPrefixOf (['0', 'x'] ++ ((jsToStringBase16 b).data ++ tail.data)) = true := by
    apply List.isPrefixOf_iff_prefix.mpr
    exact ⟨_, rfl⟩
  rw [if_pos hpref]
  rw [show List.drop 2 (['0', 'x'] ++ ((jsToStringBase16 b).data ++ tail.data))
      = (jsToStringBase16 b).data ++ tail.data from rfl]
  rw [takeWhile_all_append _ _ _ (jsToStringBase16_parse b).2, ht, List.append_nil]
  rw [(jsToStringBase16_parse b).1]

theorem writeFileData_byte_exact (framework fileName : String) (data : List Nat)
    (h : data ≠ []) :
    (writeFileData framework fileName data).2 = true
    ∧ ((writeFileData framework fileName data).1.drop 2).map decodeByteChunk = data.map some
    ∧ ((writeFileData framework fileName data).1.drop 2).length = data.length
    ∧ (writeFileData framework fileName data).1.head?
        = some ("const size_t " ++ formatName fileName ++ "_Length = "
            ++ toString data.length ++ ";\n") := by
  have hl : data.getLast? = some (data.getLast h) := List.getLast?_eq_getLast data h
  have hpos : 0 < data.length := List.length_pos.mpr h
  unfold writeFileData
  rw [hl]
  refine ⟨rfl, ?_, ?_, rfl⟩
  · show ((data.dropLast.map (fun b => "0x" ++ jsToStringBase16 b ++ ", "))
        ++ ["0x" ++ jsToStringBase16 (data.getLast h) ++ "\n\x7d;\n\n"]).map decodeByteChunk
      = data.map some
    rw [List.map_append, List.map_map]
    have h1 : data.dropLast.map (decodeByteChunk ∘ fun b => "0x" ++ jsToStringBase16 b ++ ", ")
        = data.dropLast.map some := by
      apply List.map_congr_left
      intro b _
      exact decodeByteChunk_encode b ", " (by decide)
    have h2 : decodeByteChunk ("0x" ++ jsToStringBase16 (data.getLast h) ++ "\n\x7d;\n\n")
        = some (data.getLast h) :=
      decodeByteChunk_encode _ "\n\x7d;\n\n" (by decide)
    rw [h1]
    show data.dropLast.map some ++ [decodeByteChunk _] = data.map some
    rw [h2]
    rw [show data.dropLast.map some ++ [some (data.getLast h)]
        = (data.dropLast ++ [data.getLast h]).map some by simp]
    rw [List.dropLast_append_getLast h]
  · show ((data.dropLast.map (fun b => "0x" ++ jsToStringBase16 b ++ ", "))
        ++ ["0x" ++ jsToStringBase16 (data.getLast h) ++ "\n\x7d;\n\n"]).length = data.length
    simp only [List.length_append, List.length_map, List.length_dropLast, List.length_singleton]
    omega

/-- C3 witness: the three-byte content `[104, 0, 255]` is encoded into
chunks that decode back to exactly those bytes. -/
theorem writeFileData_byte_exact_witness :
    ([104, 0, 255] : List Nat) ≠ []
    ∧ ((writeFileData "arduino" "a.html" [104, 0, 255]).2 = true
      ∧ ((writeFileData "arduino" "a.html" [104, 0, 255]).1.drop 2).map decodeByteChunk
          = ([104, 0, 255] : List Nat).map some
      ∧ ((writeFileData "arduino" "a.html" [104, 0, 255]).1.drop 2).length
          = ([104, 0, 255] : List Nat).length
      ∧ (writeFileData "arduino" "a.html" [104, 0, 255]).1.head?
          = some ("const size_t " ++ formatName "a.html" ++ "_Length = "
              ++ toString ([104, 0, 255] : List Nat).length ++ ";\n")) :=
  ⟨by decide, writeFileData_byte_exact "arduino" "a.html" [104, 0, 255] (by decide)⟩

/-!
## C2 — root route characterization (arduino branch)
-/

theorem isPrefixOf_append_of_pref {p l1 : List Char} (l2 : List Char)
    (h : p.isPrefixOf l1 = true) : p.isPrefixOf (l1 ++ l2) = true := by
  apply List.isPrefixOf_iff_prefix.mpr
  exact (List.isPrefixOf_iff_prefix.mp h).trans (List.prefix_append l1 l2)

theorem identChar_ne_quote_paren {c : Char} (h : isIdentChar c = true) :
    c ≠ '"' ∧ c ≠ ')' := by
  constructor <;> · intro hc; subst hc; exact absurd h (by decide)

theorem jsSplitHead_data_subset (s sep : String) : (jsSplitHead s sep).data ⊆ s.data := by
  unfold jsSplitHead
  cases firstOcc sep.data s.data with
  | none => exact fun c hc => hc
  | some i => exact List.take_subset i s.data

theorem parseServerOn_shape (w hstr tail : String)
    (hw : ∀ c ∈ w.data, c ≠ '"')
    (hh : ∀ c ∈ hstr.data, c ≠ ')') :
    parseServerOn ("  server.on(\"" ++ w ++ "\", " ++ hstr ++ ");" ++ tail)
      = some (w, hstr) := by
  have hdata : ("  server.on(\"" ++ w ++ "\", " ++ hstr ++ ");" ++ tail).data
      = "  server.on(\"".data ++ (w.data ++ ('"' :: ',' :: ' ' ::
          (hstr.data ++ (')' :: ';' :: tail.data)))) := by
    simp [String.data_append]
  unfold parseServerOn jsStartsWith
  rw [hdata]
  rw [if_pos (isPrefixOf_append_of_pref _ (by decide))]
  dsimp only
  rw [show List.drop 13 ("  server.on(\"".data ++ (w.data ++ ('"' :: ',' :: ' ' ::
      (hstr.data ++ (')' :: ';' :: tail.data)))))
      = w.data ++ ('"' :: ',' :: ' ' :: (hstr.data ++ (')' :: ';' :: tail.data)))
      from rfl]
  rw [takeWhile_all_append _ w.data _
    (fun c hc => by simp only [decide_eq_true_eq]; exact hw c hc)]
  rw [show List.takeWhile (fun c => decide (c ≠ '"'))
      ('"' :: ',' :: ' ' :: (hstr.data ++ (')' :: ';' :: tail.data))) = [] from rfl]
  rw [List.append_nil, List.drop_left]
  rw [show List.take 3 ('"' :: ',' :: ' ' :: (hstr.data ++ (')' :: ';' :: tail.data)))
      = ['"', ',', ' '] from rfl]
  rw [if_pos rfl]
  rw [show List.drop 3 ('"' :: ',' :: ' ' :: (hstr.data ++ (')' :: ';' :: tail.data)))
      = hstr.data ++ (')' :: ';' :: tail.data) from rfl]
  rw [takeWhile_all_append _ hstr.data _
    (fun c hc => by simp only [decide_eq_true_eq]; exact hh c hc)]
  rw [show List.takeWhile (fun c => decide (c ≠ ')')) (')' :: ';' :: tail.data) = [] from rfl]
  rw [List.append_nil]

theorem chars_Page_no_paren : ∀ c ∈ ("Page" : String).data, c ≠ ')' := by decide

theorem formatName_Page_no_paren (f : String) :
    ∀ c ∈ (formatName f ++ "Page").data, c ≠ ')' := by
  intro c hc
  rw [String.data_append] at hc
  rcases List.mem_append.mp hc with h1 | h1
  · exact (identChar_ne_quote_paren ((formatName_ident_chars f).1 c h1)).2
  · exact chars_Page_no_paren c h1

theorem slash_splitHead_no_quote (f : String) (hf : ∀ c ∈ f.data, c ≠ '"') :
    ∀ c ∈ ("/" ++ jsSplitHead f ".gz").data, c ≠ '"' := by
  intro c hc
  rw [String.data_append] at hc
  rcases List.mem_append.mp hc with h1 | h1
  · have : ∀ c ∈ ("/" : String).data, c ≠ '"' := by decide
    exact this c h1
  · exact hf c (jsSplitHead_data_subset f ".gz" h1)

theorem parseServerOn_root (name : String) (hh : ∀ c ∈ name.data, c ≠ ')') :
    parseServerOn ("  server.on(\"/\", " ++ name ++ "Page);\n")
      = some ("/", name ++ "Page") := by
  have heq : "  server.on(\"/\", " ++ name ++ "Page);\n"
      = "  server.on(\"" ++ "/" ++ "\", " ++ (name ++ "Page") ++ ");" ++ "\n" := by
    apply String.ext
    simp only [String.data_append]
    simp [List.append_assoc]
  rw [heq]
  apply parseServerOn_shape "/" (name ++ "Page") "\n" (by decide)
  intro c hc
  rw [String.data_append] at hc
  rcases List.mem_append.mp hc with h1 | h1
  · exact hh c h1
  · exact chars_Page_no_paren c h1

theorem parseServerOn_main (w name : String)
    (hw : ∀ c ∈ w.data, c ≠ '"') (hh : ∀ c ∈ name.data, c ≠ ')') :
    parseServerOn ("  server.on(\"/" ++ w ++ "\", " ++ name ++ "Page);\n\x7d\n")
      = some ("/" ++ w, name ++ "Page") := by
  have heq : "  server.on(\"/" ++ w ++ "\", " ++ name ++ "Page);\n\x7d\n"
      = "  server.on(\"" ++ ("/" ++ w) ++ "\", " ++ (name ++ "Page") ++ ");" ++ "\n\x7d\n" := by
    apply String.ext
    simp only [String.data_append]
    simp [List.append_assoc]
  rw [heq]
  apply parseServerOn_shape ("/" ++ w) (name ++ "Page") "\n\x7d\n"
  · intro c hc
    rw [String.data_append] at hc
    rcases List.mem_append.mp hc with h1 | h1
    · have : ∀ c ∈ ("/" : String).data, c ≠ '"' := by decide
      exact this c h1
    · exact hw c h1
  · intro c hc
    rw [String.data_append] at hc
    rcases List.mem_append.mp hc with h1 | h1
    · exact hh c h1
    · exact chars_Page_no_paren c h1

theorem filterMap_parse_groups (files : List String)
    (hq : ∀ f ∈ files, ∀ c ∈ f.data, c ≠ '"') :
    (files.flatMap (fun file =>
      (if jsSplitHead file ".gz" == "index.html"
       then ["  server.on(\"/\", " ++ formatName file ++ "Page);\n"] else [])
      ++ ["  server.on(\"/" ++ jsSplitHead file ".gz" ++ "\", "
          ++ formatName file ++ "Page);\n\x7d\n"])).filterMap parseServerOn
    = files.flatMap (fun f =>
      (if jsSplitHead f ".gz" == "index.html"
       then [(("/" : String), formatName f ++ "Page")] else [])
      ++ [("/" ++ jsSplitHead f ".gz", formatName f ++ "Page")]) := by
  induction files with
  | nil => rfl
  | cons f rest ih =>
    have hqf : ∀ c ∈ f.data, c ≠ '"' := hq f (List.mem_cons_self f rest)
    have hqrest : ∀ g ∈ rest, ∀ c ∈ g.data, c ≠ '"' :=
      fun g hg => hq g (List.mem_cons_of_mem f hg)
    simp only [List.flatMap_cons, List.filterMap_append]
    rw [ih hqrest]
    congr 1
    have hmain := parseServerOn_main (jsSplitHead f ".gz") (formatName f)
      (fun c hc => hqf c (jsSplitHead_data_subset f ".gz" hc))
      (fun c hc => (identChar_ne_quote_paren ((formatName_ident_chars f).1 c hc)).2)
    by_cases hw : (jsSplitHead f ".gz" == "index.html") = true
    · rw [if_pos hw, if_pos hw]
      have hroot := parseServerOn_root (formatName f)
        (fun c hc => (identChar_ne_quote_paren ((formatName_ident_chars f).1 c hc)).2)
      simp [List.filterMap_cons, hroot, hmain]
    · rw [if_neg hw, if_neg hw]
      simp [List.filterMap_cons, hmain]

theorem registerRoutes_eq (files : List String)
    (hq : ∀ f ∈ files, ∀ c ∈ f.data, c ≠ '"') :
    registerRoutes files = files.flatMap (fun f =>
      (if jsSplitHead f ".gz" == "index.html"
       then [(("/" : String), formatName f ++ "Page")] else [])
      ++ [("/" ++ jsSplitHead f ".gz", formatName f ++ "Page")]) := by
  unfold registerRoutes writeRegisterFunction
  rw [if_neg (by decide : ¬ (("arduino" : String) == "esp-idf") = true)]
  rw [List.singleton_append, List.filterMap_cons]
  rw [show parseServerOn "void registerWebsite() \x7b\n" = none from by decide]
  exact filterMap_parse_groups files hq

theorem root_route_characterization (files : List String)
    (hq : ∀ f ∈ files, ∀ c ∈ f.data, c ≠ '"') :
    ((∃ hstr, (("/" : String), hstr) ∈ registerRoutes files)
      ↔ ∃ f ∈ files, (jsSplitHead f ".gz" = "index.html" ∨ jsSplitHead f ".gz" = ""))
    ∧ ∀ f ∈ files, jsSplitHead f ".gz" = "index.html" →
        (("/" : String), formatName f ++ "Page") ∈ registerRoutes files
        ∧ (("/index.html" : String), formatName f ++ "Page") ∈ registerRoutes files := by
  rw [registerRoutes_eq files hq]
  constructor
  · constructor
    · rintro ⟨hstr, hmem⟩
      rw [List.mem_flatMap] at hmem
      obtain ⟨f, hf, hin⟩ := hmem
      rcases List.mem_append.mp hin with h1 | h1
      · by_cases hw : (jsSplitHead f ".gz" == "index.html") = true
        · exact ⟨f, hf, Or.inl (eq_of_beq hw)⟩
        · rw [if_neg hw] at h1
          cases h1
      · rw [List.mem_singleton, Prod.mk.injEq] at h1
        refine ⟨f, hf, Or.inr ?_⟩
        have hdat := congrArg String.data h1.1
        rw [String.data_append] at hdat
        rw [show ("/" : String).data = ['/'] from rfl] at hdat
        apply String.ext
        cases hsplit : jsSplitHead f ".gz" with
        | mk d =>
          rw [hsplit] at hdat
          simpa using hdat.symm
    · rintro ⟨f, hf, hcase⟩
      refine ⟨formatName f ++ "Page", ?_⟩
      rw [List.mem_flatMap]
      rcases hcase with hw | hw
      · refine ⟨f, hf, List.mem_append_left _ ?_⟩
        rw [if_pos (beq_iff_eq.mpr hw)]
        exact List.mem_singleton.mpr rfl
      · refine ⟨f, hf, List.mem_append_right _ ?_⟩
        rw [hw, String.append_empty]
        exact List.mem_singleton.mpr rfl
  · intro f hf hw
    constructor
    · rw [List.mem_flatMap]
      refine ⟨f, hf, List.mem_append_left _ ?_⟩
      rw [if_pos (beq_iff_eq.mpr hw)]
      exact List.mem_singleton.mpr rfl
    · rw [List.mem_flatMap]
      refine ⟨f, hf, List.mem_append_right _ ?_⟩
      rw [hw, show ("/" ++ "index.html" : String) = "/index.html" from by decide]
      exact List.mem_singleton.mpr rfl

theorem root_route_characterization_witness :
    (∀ f ∈ (["index.html", "style.css"] : List String), ∀ c ∈ f.data, c ≠ '"')
    ∧ (((∃ hstr, (("/" : String), hstr) ∈ registerRoutes ["index.html", "style.css"])
        ↔ ∃ f ∈ (["index.html", "style.css"] : List String),
            (jsSplitHead f ".gz" = "index.html" ∨ jsSplitHead f ".gz" = ""))
      ∧ ∀ f ∈ (["index.html", "style.css"] : List String),
          jsSplitHead f ".gz" = "index.html" →
          (("/" : String), formatName f ++ "Page") ∈ registerRoutes ["index.html", "style.css"]
          ∧ (("/index.html" : String), formatName f ++ "Page")
              ∈ registerRoutes ["index.html", "style.css"]) :=
  ⟨by decide, root_route_characterization ["index.html", "style.css"] (by decide)⟩

/-!
## C7 — content-type stability for compressed assets
-/

theorem firstOcc_cons_eq_none {pat : List Char} {a : Char} {rest : List Char}
    (h : firstOcc pat (a :: rest) = none) :
    pat.isPrefixOf (a :: rest) = false ∧ firstOcc pat rest = none := by
  by_cases hp : pat.isPrefixOf (a :: rest) = true
  · rw [firstOcc, if_pos hp] at h
    cases h
  · have hp' : pat.isPrefixOf (a :: rest) = false := by
      cases hb : pat.isPrefixOf (a :: rest) with
      | true => exact absurd hb hp
      | false => rfl
    rw [firstOcc, if_neg (by rw [hp']; exact Bool.false_ne_true)] at h
    exact ⟨hp', Option.map_eq_none'.mp h⟩

theorem firstOcc_gz_append (front : List Char) (h : firstOcc gzChars front = none) :
    firstOcc gzChars (front ++ gzChars) = some front.length := by
  induction front with
  | nil => decide
  | cons a rest ih =>
    obtain ⟨h1, h2⟩ := firstOcc_cons_eq_none h
    have h3 : gzChars.isPrefixOf (a :: (rest ++ gzChars)) = false := by
      match rest with
      | [] =>
        show gzChars.isPrefixOf (a :: gzChars) = false
        simp [gzChars, List.isPrefixOf]
      | [b] =>
        show gzChars.isPrefixOf (a :: b :: gzChars) = false
        simp [gzChars, List.isPrefixOf]
      | b :: c :: rest3 =>
        simp only [gzChars, List.cons_append, List.isPrefixOf] at h1 ⊢
        simpa using h1
    rw [List.cons_append, firstOcc, if_neg (by rw [h3]; exact Bool.false_ne_true)]
    rw [ih h2]
    rfl

theorem endsWithGz_decomp {s : String} (h : jsEndsWith s ".gz" = true) :
    ∃ front, s.data = front ++ gzChars := by
  have hs := List.isSuffixOf_iff_suffix.mp h
  obtain ⟨t, ht⟩ := hs
  exact ⟨t, ht.symm⟩

theorem stripGz_of_decomp {s : String} {front : List Char}
    (hd : s.data = front ++ gzChars) : (stripGz s).data = front := by
  have hgz : jsEndsWith s ".gz" = true := by
    apply List.isSuffixOf_iff_suffix.mpr
    exact ⟨front, hd.symm⟩
  unfold stripGz
  rw [if_pos hgz, hd]
  show (front ++ gzChars).take ((front ++ gzChars).length - 3) = front
  rw [show (front ++ gzChars).length - 3 = front.length by simp [gzChars]]
  simp

theorem jsSplitHead_of_trailing_gz {s : String} {front : List Char}
    (hd : s.data = front ++ gzChars)
    (hno : firstOcc gzChars front = none) :
    jsSplitHead s ".gz" = ⟨front⟩ := by
  unfold jsSplitHead
  rw [show (".gz" : String).data = gzChars from rfl, hd, firstOcc_gz_append front hno]
  dsimp only
  rw [show (front ++ gzChars).take front.length = front by simp]

/-- C7 (amended): for a compressed stored name whose uncompressed form
contains no further `".gz"`, the walker's content type equals the MIME
type of the suffix-stripped name, and the directory entry is kept and
emitted exactly so. -/
theorem compressed_content_type_stable (allNames : List String) (N : String) (c : List Nat)
    (hgz : jsEndsWith N ".gz" = true)
    (hnogz : containsSub (stripGz N) ".gz" = false) :
    mimeOfEntry N = mimeGetType (stripGz N)
    ∧ getFilesAux allNames [(N, FSTree.file c)] = [⟨N, mimeGetType (stripGz N)⟩] := by
  obtain ⟨front, hd⟩ := endsWithGz_decomp hgz
  have hstrip : (stripGz N).data = front := stripGz_of_decomp hd
  have hno : firstOcc gzChars front = none := by
    unfold containsSub at hnogz
    rw [show (".gz" : String).data = gzChars from rfl, hstrip] at hnogz
    exact Option.not_isSome_iff_eq_none.mp (by rw [hnogz]; exact Bool.false_ne_true)
  have hsplit : jsSplitHead N ".gz" = stripGz N := by
    rw [jsSplitHead_of_trailing_gz hd hno]
    apply String.ext
    exact hstrip.symm
  have hmime : mimeOfEntry N = mimeGetType (stripGz N) := by
    unfold mimeOfEntry
    rw [if_pos hgz, hsplit]
  refine ⟨hmime, ?_⟩
  have hkeep : keepEntry allNames N = true := by
    unfold keepEntry
    rw [hgz]
    rfl
  simp [getFilesAux, hkeep, hmime]

/-- C7 witness: the compressed asset `app.js.gz` receives the MIME type
of `app.js`. -/
theorem compressed_content_type_stable_witness :
    jsEndsWith "app.js.gz" ".gz" = true
    ∧ containsSub (stripGz "app.js.gz") ".gz" = false
    ∧ (mimeOfEntry "app.js.gz" = mimeGetType (stripGz "app.js.gz")
      ∧ getFilesAux ["app.js.gz"] [("app.js.gz", FSTree.file [1])]
          = [⟨"app.js.gz", mimeGetType (stripGz "app.js.gz")⟩]) :=
  ⟨by decide, by decide,
    compressed_content_type_stable ["app.js.gz"] "app.js.gz" [1] (by decide) (by decide)⟩

/-!
## C1 — dedup keeps exactly the compressed sibling
-/

theorem firstOcc_isSome_of_suffix {pat l : List Char} (h : pat <:+ l) :
    (firstOcc pat l).isSome = true := by
  obtain ⟨t, ht⟩ := h
  subst ht
  induction t with
  | nil =>
    have hp : pat.isPrefixOf pat = true :=
      List.isPrefixOf_iff_prefix.mpr (List.prefix_refl pat)
    cases pat with
    | nil => simp [firstOcc]
    | cons c r =>
      rw [List.nil_append, firstOcc, if_pos hp]
      rfl
  | cons a t ih =>
    rw [List.cons_append, firstOcc]
    by_cases hp : pat.isPrefixOf (a :: (t ++ pat)) = true
    · rw [if_pos hp]
      rfl
    · rw [if_neg hp]
      obtain ⟨v, hv⟩ := Option.isSome_iff_exists.mp ih
      rw [hv]
      rfl

theorem not_endsWith_gz_of_no_gz {F : String} (h : containsSub F ".gz" = false) :
    jsEndsWith F ".gz" = false := by
  cases hb : jsEndsWith F ".gz" with
  | false => rfl
  | true =>
    have hsuf := List.isSuffixOf_iff_suffix.mp hb
    have hsome := firstOcc_isSome_of_suffix hsuf
    unfold containsSub at h
    rw [h] at hsome
    cases hsome

theorem firstOcc_none_of_no_gz {F : String} (h : containsSub F ".gz" = false) :
    firstOcc gzChars F.data = none := by
  unfold containsSub at h
  rw [show (".gz" : String).data = gzChars from rfl] at h
  exact Option.not_isSome_iff_eq_none.mp (by rw [h]; exact Bool.false_ne_true)

theorem appendGz_data (F : String) : (F ++ ".gz").data = F.data ++ gzChars := by
  rw [String.data_append]
  rfl

theorem endsWith_appendGz (F : String) : jsEndsWith (F ++ ".gz") ".gz" = true := by
  apply List.isSuffixOf_iff_suffix.mpr
  exact ⟨F.data, (appendGz_data F).symm⟩

theorem stripGz_appendGz (F : String) : stripGz (F ++ ".gz") = F := by
  apply String.ext
  exact stripGz_of_decomp (appendGz_data F)

theorem mimeOfEntry_appendGz {F : String} (h : containsSub F ".gz" = false) :
    mimeOfEntry (F ++ ".gz") = mimeGetType F := by
  unfold mimeOfEntry
  rw [if_pos (endsWith_appendGz F)]
  rw [jsSplitHead_of_trailing_gz (appendGz_data F) (firstOcc_none_of_no_gz h)]

theorem stripGz_eq_cases {N F : String} (h : stripGz N = F) :
    N = F ∨ N = F ++ ".gz" := by
  by_cases hgz : jsEndsWith N ".gz" = true
  · obtain ⟨front, hd⟩ := endsWithGz_decomp hgz
    have hsd : (stripGz N).data = front := stripGz_of_decomp hd
    rw [h] at hsd
    right
    apply String.ext
    rw [hd, appendGz_data, hsd]
  · left
    rw [← h]
    unfold stripGz
    rw [if_neg hgz]

theorem slash_mem_stripGz {s : String} (h : '/' ∈ s.data) : '/' ∈ (stripGz s).data := by
  by_cases hgz : jsEndsWith s ".gz" = true
  · obtain ⟨front, hd⟩ := endsWithGz_decomp hgz
    rw [stripGz_of_decomp hd]
    rw [hd] at h
    rcases List.mem_append.mp h with h1 | h1
    · exact h1
    · exact absurd h1 (by decide)
  · unfold stripGz
    rw [if_neg hgz]
    exact h

theorem stripGz_beq_false_of_slash {X F : String} (hx : '/' ∈ X.data)
    (hf : '/' ∉ F.data) : (stripGz X == F) = false := by
  cases hb : (stripGz X == F) with
  | false => rfl
  | true =>
    have heq : stripGz X = F := eq_of_beq hb
    have hmem : '/' ∈ (stripGz X).data := slash_mem_stripGz hx
    rw [heq] at hmem
    exact absurd hmem hf

theorem filter_name_eq_singleton {entries : List (String × FSTree)} {nm : String} {t : FSTree}
    (hnodup : (entries.map Prod.fst).Nodup) (hmem : (nm, t) ∈ entries) :
    entries.filter (fun e => e.1 == nm) = [(nm, t)] := by
  induction entries with
  | nil => cases hmem
  | cons e rest ih =>
    rw [List.map_cons, List.nodup_cons] at hnodup
    rcases List.mem_cons.mp hmem with h1 | h1
    · subst h1
      rw [List.filter_cons, if_pos (by simp)]
      have hnil : rest.filter (fun e => e.1 == nm) = [] := by
        apply List.filter_eq_nil_iff.mpr
        intro x hx hxeq
        have hx1 : x.1 ∈ List.map Prod.fst rest := List.mem_map_of_mem Prod.fst hx
        rw [eq_of_beq hxeq] at hx1
        exact hnodup.1 hx1
      rw [hnil]
    · have hne : (e.1 == nm) = false := by
        cases hb : (e.1 == nm) with
        | false => rfl
        | true =>
          exfalso
          exact hnodup.1 (by rw [eq_of_beq hb]; exact List.mem_map_of_mem Prod.fst h1)
      rw [List.filter_cons, if_neg (by rw [hne]; exact Bool.false_ne_true)]
      exact ih hnodup.2 h1

theorem filter_logical (allNames : List String) (F : String)
    (hFno : containsSub F ".gz" = false)
    (hkeepF : keepEntry allNames F = false)
    (hFslash : '/' ∉ F.data) :
    ∀ entries : List (String × FSTree),
      (∀ e ∈ entries, e.1 = F ++ ".gz" → ∃ c, e.2 = FSTree.file c) →
      (getFilesAux allNames entries).filter (fun a => stripGz a.file == F)
        = (entries.filter (fun e => e.1 == F ++ ".gz")).map
            (fun _ => (⟨F ++ ".gz", mimeGetType F⟩ : Asset)) := by
  intro entries
  induction entries with
  | nil =>
    intro _
    rfl
  | cons e rest ih =>
    intro H2
    have H2rest : ∀ x ∈ rest, x.1 = F ++ ".gz" → ∃ c, x.2 = FSTree.file c :=
      fun x hx => H2 x (List.mem_cons_of_mem e hx)
    obtain ⟨N, t⟩ := e
    cases t with
    | file c =>
      rw [show getFilesAux allNames ((N, FSTree.file c) :: rest)
          = (if keepEntry allNames N then [⟨N, mimeOfEntry N⟩] else [])
            ++ getFilesAux allNames rest from by simp [getFilesAux]]
      rw [List.filter_append, ih H2rest, List.filter_cons]
      dsimp only
      by_cases hN : (N == F ++ ".gz") = true
      · have hNe : N = F ++ ".gz" := eq_of_beq hN
        subst hNe
        have hkeep : keepEntry allNames (F ++ ".gz") = true := by
          unfold keepEntry
          rw [endsWith_appendGz]
          rfl
        rw [if_pos hN, if_pos hkeep]
        have hpred : (stripGz (F ++ ".gz") == F) = true := by
          rw [stripGz_appendGz]
          exact beq_self_eq_true F
        rw [show List.filter (fun a => stripGz a.file == F)
            [(⟨F ++ ".gz", mimeOfEntry (F ++ ".gz")⟩ : Asset)]
            = [⟨F ++ ".gz", mimeOfEntry (F ++ ".gz")⟩] from by
          rw [List.filter_cons, if_pos hpred]
          rfl]
        rw [mimeOfEntry_appendGz hFno]
        rfl
      · rw [if_neg hN]
        have hNb : (N == F ++ ".gz") = false := by
          cases hb : (N == F ++ ".gz") with
          | false => rfl
          | true => exact absurd hb hN
        by_cases hkeep : keepEntry allNames N = true
        · rw [if_pos hkeep]
          have hpred : ¬((stripGz N == F) = true) := by
            intro hb
            rcases stripGz_eq_cases (eq_of_beq hb) with h1 | h1
            · subst h1
              rw [hkeepF] at hkeep
              cases hkeep
            · exact hN (beq_iff_eq.mpr h1)
          rw [show List.filter (fun a => stripGz a.file == F)
              [(⟨N, mimeOfEntry N⟩ : Asset)] = [] from by
            rw [List.filter_cons, if_neg hpred]
            rfl]
          rfl
        · rw [if_neg hkeep]
          rfl
    | dir sub =>
      rw [show getFilesAux allNames ((N, FSTree.dir sub) :: rest)
          = (if keepEntry allNames N then
              (getFiles (FSTree.dir sub)).map (fun a => ⟨N ++ "/" ++ a.file, a.mime⟩)
             else [])
            ++ getFilesAux allNames rest from by simp [getFilesAux]]
      rw [List.filter_append, ih H2rest, List.filter_cons]
      dsimp only
      have hNb : ¬((N == F ++ ".gz") = true) := by
        intro hb
        obtain ⟨cc, hcc⟩ := H2 (N, FSTree.dir sub) (List.mem_cons_self _ rest) (eq_of_beq hb)
        cases hcc
      rw [if_neg hNb]
      have hfil : ((getFiles (FSTree.dir sub)).map
          (fun a => (⟨N ++ "/" ++ a.file, a.mime⟩ : Asset))).filter
            (fun a => stripGz a.file == F) = [] := by
        apply List.filter_eq_nil_iff.mpr
        intro a ha hpred
        obtain ⟨b, _, hb⟩ := List.mem_map.mp ha
        have hslashmem : '/' ∈ a.file.data := by
          rw [← hb]
          show '/' ∈ ((N ++ "/") ++ b.file).data
          rw [String.data_append, String.data_append]
          exact List.mem_append.mpr (Or.inl (List.mem_append.mpr (Or.inr (by decide))))
        have hfalse := stripGz_beq_false_of_slash hslashmem hFslash
        rw [hfalse] at hpred
        cases hpred
      by_cases hkeep : keepEntry allNames N = true
      · rw [if_pos hkeep, hfil]
        rfl
      · rw [if_neg hkeep]
        rfl

/-- C1 (amended): when both `F` and `F ++ ".gz"` are file entries of a
directory (distinct entry names, slash-free, `F` containing no `".gz"`
occurrence), the asset list of the walk contains exactly one entry
whose logical (suffix-stripped) name is `F`, namely the compressed
stored name `F ++ ".gz"` carrying the content type of the uncompressed
name `F`. -/
theorem dedup_unique_compressed (entries : List (String × FSTree)) (F : String)
    (cf cg : List Nat)
    (hnodup : (entries.map Prod.fst).Nodup)
    (hslash : ∀ e ∈ entries, '/' ∉ e.1.data)
    (hmemF : (F, FSTree.file cf) ∈ entries)
    (hmemFgz : (F ++ ".gz", FSTree.file cg) ∈ entries)
    (hnogz : containsSub F ".gz" = false) :
    (getFiles (FSTree.dir entries)).filter (fun a => stripGz a.file == F)
      = [⟨F ++ ".gz", mimeGetType F⟩] := by
  have hFslash : '/' ∉ F.data := hslash (F, FSTree.file cf) hmemF
  have hcontains : (entries.map Prod.fst).contains (F ++ ".gz") = true := by
    have hmemname : F ++ ".gz" ∈ entries.map Prod.fst :=
      List.mem_map_of_mem Prod.fst hmemFgz
    exact List.elem_eq_true_of_mem hmemname
  have hkeepF : keepEntry (entries.map Prod.fst) F = false := by
    unfold keepEntry
    rw [not_endsWith_gz_of_no_gz hnogz, hcontains]
    rfl
  have H2 : ∀ e ∈ entries, e.1 = F ++ ".gz" → ∃ c, e.2 = FSTree.file c := by
    intro e he heq
    have hef : e ∈ entries.filter (fun x => x.1 == F ++ ".gz") :=
      List.mem_filter.mpr ⟨he, beq_iff_eq.mpr heq⟩
    rw [filter_name_eq_singleton hnodup hmemFgz] at hef
    rw [List.mem_singleton.mp hef]
    exact ⟨cg, rfl⟩
  show (getFilesAux (entries.map Prod.fst) entries).filter (fun a => stripGz a.file == F)
    = [⟨F ++ ".gz", mimeGetType F⟩]
  rw [filter_logical (entries.map Prod.fst) F hnogz hkeepF hFslash entries H2]
  rw [filter_name_eq_singleton hnodup hmemFgz]
  rfl

/-- C1 witness: a directory holding both `app.js` and `app.js.gz`
walks to exactly one asset with logical name `app.js` — the compressed
file, typed from the uncompressed name. -/
theorem dedup_unique_compressed_witness :
    ((([("app.js", FSTree.file [1]), ("app.js.gz", FSTree.file [2])]
        : List (String × FSTree)).map Prod.fst).Nodup
      ∧ containsSub "app.js" ".gz" = false)
    ∧ (getFiles (FSTree.dir [("app.js", FSTree.file [1]), ("app.js.gz", FSTree.file [2])])).filter
        (fun a => stripGz a.file == "app.js")
      = [⟨"app.js" ++ ".gz", mimeGetType "app.js"⟩] :=
  ⟨⟨by decide, by decide⟩,
    dedup_unique_compressed
      [("app.js", FSTree.file [1]), ("app.js.gz", FSTree.file [2])]
      "app.js" [1] [2] (by decide)
      (by
        intro e he
        rcases List.mem_cons.mp he with h1 | h1
        · subst h1
          decide
        · rcases List.mem_cons.mp h1 with h2 | h2
          · subst h2
            decide
          · cases h2)
      (List.mem_cons_self _ _)
      (by
        apply List.mem_cons_of_mem
        have heq : ("app.js" ++ ".gz", FSTree.file [2]) = ("app.js.gz", FSTree.file ([2] : List Nat)) := by
          rw [show ("app.js" ++ ".gz" : String) = "app.js.gz" from by decide]
        rw [heq]
        exact List.mem_cons_self _ _)
      (by decide)⟩

/-!
## C5 — completeness counts over the generated source (arduino)
-/

theorem jsStartsWith_of_data {s p : String} {l : List Char}
    (hd : s.data = p.data ++ l) : jsStartsWith s p = true := by
  unfold jsStartsWith
  rw [hd]
  exact isPrefixOf_append_of_pref l (List.isPrefixOf_iff_prefix.mpr (List.prefix_refl _))

theorem jsStartsWith_false_head1 {s p : String} {a b : Char} {l1 l2 : List Char}
    (hs : s.data = a :: l1) (hp : p.data = b :: l2) (hne : (b == a) = false) :
    jsStartsWith s p = false := by
  unfold jsStartsWith
  rw [hs, hp]
  show (b == a && l2.isPrefixOf l1) = false
  rw [hne]
  rfl

theorem jsStartsWith_false_of_head {s p head : String} {l : List Char}
    (hd : s.data = head.data ++ l)
    (hlen : p.data.length ≤ head.data.length)
    (hp : p.data.isPrefixOf head.data = false) : jsStartsWith s p = false := by
  cases hb : jsStartsWith s p with
  | false => rfl
  | true =>
    exfalso
    unfold jsStartsWith at hb
    have hpref := List.isPrefixOf_iff_prefix.mp hb
    rw [hd] at hpref
    have h1 : p.data = (head.data ++ l).take p.data.length :=
      List.prefix_iff_eq_take.mp hpref
    rw [List.take_append_of_le_length hlen] at h1
    have h2 : p.data <+: head.data := by
      rw [h1]
      exact List.take_prefix _ _
    rw [List.isPrefixOf_iff_prefix.mpr h2] at hp
    cases hp

theorem jsEndsWith_of_data {s suf : String} {l : List Char}
    (hd : s.data = l ++ suf.data) : jsEndsWith s suf = true := by
  apply List.isSuffixOf_iff_suffix.mpr
  exact ⟨l, hd.symm⟩

theorem string_beq_false_of_head {s t : String} {a b : Char} {l1 l2 : List Char}
    (hs : s.data = a :: l1) (ht : t.data = b :: l2) (hne : a ≠ b) :
    (s == t) = false := by
  apply beq_eq_false_iff_ne.mpr
  intro heq
  have := congrArg String.data heq
  rw [hs, ht] at this
  exact hne (List.head_eq_of_cons_eq this)

theorem countP_flatMap {α : Type} (p : String → Bool) (f : α → List String) :
    ∀ l : List α, ((l.flatMap f).countP p) = (l.map (fun x => (f x).countP p)).sum := by
  intro l
  induction l with
  | nil => rfl
  | cons x rest ih =>
    rw [List.flatMap_cons, List.countP_append, List.map_cons, List.sum_cons, ih]

theorem sum_map_const_one {α : Type} (l : List α) :
    (l.map (fun _ => (1 : Nat))).sum = l.length := by
  induction l with
  | nil => rfl
  | cons x rest ih =>
    rw [List.map_cons, List.sum_cons, ih, List.length_cons]
    omega

theorem sum_map_ite_eq_countP {α : Type} (p : α → Bool) (l : List α) :
    (l.map (fun a => if p a then (1 : Nat) else 0)).sum = l.countP p := by
  induction l with
  | nil => rfl
  | cons x rest ih =>
    rw [List.map_cons, List.sum_cons, ih, List.countP_cons]
    by_cases h : p x = true
    · rw [if_pos h]
      omega
    · rw [if_neg h]
      omega

theorem jsStartsWith_false_heads {s p head : String} {l : List Char} {a b : Char}
    (hd : s.data = head.data ++ l) (hh : head.data.head? = some a)
    (hp : p.data.head? = some b) (hne : (b == a) = false) :
    jsStartsWith s p = false := by
  obtain ⟨l1, hl1⟩ : ∃ t, head.data = a :: t := by
    cases hhead : head.data with
    | nil =>
      rw [hhead] at hh
      cases hh
    | cons x xs =>
      rw [hhead] at hh
      exact ⟨xs, by rw [Option.some_inj.mp hh]⟩
  obtain ⟨l2, hl2⟩ : ∃ t, p.data = b :: t := by
    cases hpd : p.data with
    | nil =>
      rw [hpd] at hp
      cases hp
    | cons x xs =>
      rw [hpd] at hp
      exact ⟨xs, by rw [Option.some_inj.mp hp]⟩
  exact jsStartsWith_false_head1
    (show s.data = a :: (l1 ++ l) by rw [hd, hl1]; rfl) hl2 hne

theorem servingUnit_false_of_sw {s : String} (h : jsStartsWith s "void " = false) :
    isServingUnit s = false := by
  unfold isServingUnit
  rw [h]
  rfl

theorem string_beq_false_of_startsWith {s t p : String}
    (hs : jsStartsWith s p = false) (ht : jsStartsWith t p = true) : (s == t) = false := by
  apply beq_eq_false_iff_ne.mpr
  intro heq
  rw [heq, ht] at hs
  cases hs

/-- Predicate values for a chunk whose first character is not `'c'`,
`'v'` or `' '` cannot be settled generically; this lemma handles any
chunk beginning with a known head string whose first character differs
from all three predicate heads. -/
theorem preds_of_first_char {s head : String} {l : List Char} {a : Char}
    (hd : s.data = head.data ++ l) (hh : head.data.head? = some a)
    (h1 : (('c' : Char) == a) = false) (h2 : (('v' : Char) == a) = false)
    (h3 : ((' ' : Char) == a) = false) :
    isByteArrayDecl s = false ∧ isServingUnit s = false
    ∧ isRegisterStmt s = false ∧ isRegisterOpener s = false := by
  have hsw : jsStartsWith s "void " = false := jsStartsWith_false_heads hd hh rfl h2
  exact ⟨jsStartsWith_false_heads hd hh rfl h1,
    servingUnit_false_of_sw hsw,
    jsStartsWith_false_heads hd hh rfl h3,
    string_beq_false_of_startsWith hsw (by decide)⟩

/-- Predicate values for the length-constant chunk
`const size_t <NAME>_Length = <n>;`. -/
theorem preds_of_len_chunk {s : String} {l : List Char}
    (hd : s.data = ("const size_t " : String).data ++ l) :
    isByteArrayDecl s = false ∧ isServingUnit s = false
    ∧ isRegisterStmt s = false ∧ isRegisterOpener s = false := by
  have hsw : jsStartsWith s "void " = false :=
    jsStartsWith_false_heads hd rfl rfl (by decide)
  exact ⟨jsStartsWith_false_of_head hd (by decide) (by decide),
    servingUnit_false_of_sw hsw,
    jsStartsWith_false_heads hd rfl rfl (by decide),
    string_beq_false_of_startsWith hsw (by decide)⟩

/-- Predicate values for a byte chunk `0x...`. -/
theorem preds_of_byte_chunk {s : String} {l : List Char}
    (hd : s.data = ("0x" : String).data ++ l) :
    isByteArrayDecl s = false ∧ isServingUnit s = false
    ∧ isRegisterStmt s = false ∧ isRegisterOpener s = false := by
  have hsw : jsStartsWith s "void " = false :=
    jsStartsWith_false_heads hd rfl rfl (by decide)
  exact ⟨jsStartsWith_false_heads hd rfl rfl (by decide),
    servingUnit_false_of_sw hsw,
    jsStartsWith_false_heads hd rfl rfl (by decide),
    string_beq_false_of_startsWith hsw (by decide)⟩

/-- Predicate values for the array-opener chunk
`const char <NAME>[] PROGMEM = \x7b`. -/
theorem preds_of_array_opener {s : String} {l : List Char}
    (hd : s.data = ("const char " : String).data ++ l) :
    isByteArrayDecl s = true ∧ isServingUnit s = false
    ∧ isRegisterStmt s = false ∧ isRegisterOpener s = false := by
  have hsw : jsStartsWith s "void " = false :=
    jsStartsWith_false_heads hd rfl rfl (by decide)
  exact ⟨jsStartsWith_of_data hd,
    servingUnit_false_of_sw hsw,
    jsStartsWith_false_heads hd rfl rfl (by decide),
    string_beq_false_of_startsWith hsw (by decide)⟩

theorem serving_ne_opener (name : String) :
    (("void " ++ name ++ "Page() \x7b\n") == "void registerWebsite() \x7b\n") = false := by
  apply beq_eq_false_iff_ne.mpr
  intro heq
  have hd := congrArg String.data heq
  rw [String.data_append, String.data_append] at hd
  have hlen := congrArg List.length hd
  simp only [List.length_append] at hlen
  rw [show ("void " : String).data.length = 5 from rfl,
      show ("Page() \x7b\n" : String).data.length = 9 from rfl,
      show ("void registerWebsite() \x7b\n" : String).data.length = 25 from rfl] at hlen
  have hn : name.data.length = 11 := by omega
  rw [show ("void registerWebsite() \x7b\n" : String).data
      = ("void registerWeb" : String).data ++ ("site() \x7b\n" : String).data from rfl] at hd
  have hinj := List.append_inj hd (by
    simp only [List.length_append]
    rw [show ("void " : String).data.length = 5 from rfl,
        show ("void registerWeb" : String).data.length = 16 from rfl, hn])
  exact absurd hinj.2 (by decide)

/-- Predicate values for a route-serving opener chunk
`void <NAME>Page() \x7b`. -/
theorem preds_of_serving_opener (name : String) :
    isByteArrayDecl ("void " ++ name ++ "Page() \x7b\n") = false
    ∧ isServingUnit ("void " ++ name ++ "Page() \x7b\n") = true
    ∧ isRegisterStmt ("void " ++ name ++ "Page() \x7b\n") = false
    ∧ isRegisterOpener ("void " ++ name ++ "Page() \x7b\n") = false := by
  have hd : ("void " ++ name ++ "Page() \x7b\n").data
      = ("void " : String).data ++ (name.data ++ ("Page() \x7b\n" : String).data) := by
    simp [String.data_append]
  have hsw : jsStartsWith ("void " ++ name ++ "Page() \x7b\n") "void " = true :=
    jsStartsWith_of_data hd
  have hew : jsEndsWith ("void " ++ name ++ "Page() \x7b\n") "Page() \x7b\n" = true := by
    apply jsEndsWith_of_data (l := ("void " : String).data ++ name.data)
    rw [hd, List.append_assoc]
  refine ⟨jsStartsWith_false_heads hd rfl rfl (by decide), ?_,
    jsStartsWith_false_heads hd rfl rfl (by decide),
    serving_ne_opener name⟩
  unfold isServingUnit
  rw [hsw, hew]
  rfl

/-- Predicate values for a chunk starting with `  server.send_P(200, "`
(the arduino content-serving call). -/
theorem preds_of_send_chunk {s : String} {l : List Char}
    (hd : s.data = ("  server.send_P(200, \"" : String).data ++ l) :
    isByteArrayDecl s = false ∧ isServingUnit s = false
    ∧ isRegisterStmt s = false ∧ isRegisterOpener s = false := by
  have hsw : jsStartsWith s "void " = false :=
    jsStartsWith_false_heads hd rfl rfl (by decide)
  exact ⟨jsStartsWith_false_heads hd rfl rfl (by decide),
    servingUnit_false_of_sw hsw,
    jsStartsWith_false_of_head hd (by decide) (by decide),
    string_beq_false_of_startsWith hsw (by decide)⟩

/-- Predicate values for a chunk starting with `  server.on(` (an
arduino registration statement). -/
theorem preds_of_register_stmt {s : String} {l : List Char}
    (hd : s.data = ("  server.on(" : String).data ++ l) :
    isByteArrayDecl s = false ∧ isServingUnit s = false
    ∧ isRegisterStmt s = true ∧ isRegisterOpener s = false := by
  have hsw : jsStartsWith s "void " = false :=
    jsStartsWith_false_heads hd rfl rfl (by decide)
  exact ⟨jsStartsWith_false_heads hd rfl rfl (by decide),
    servingUnit_false_of_sw hsw,
    jsStartsWith_of_data hd,
    string_beq_false_of_startsWith hsw (by decide)⟩

theorem writeFileData_chunks_eq (fileName : String) (data : List Nat) (h : data ≠ []) :
    (writeFileData "arduino" fileName data).1
      = ["const size_t " ++ formatName fileName ++ "_Length = "
            ++ toString data.length ++ ";\n",
         "const char " ++ formatName fileName ++ "[] PROGMEM = \x7b\n"]
        ++ data.dropLast.map (fun b => "0x" ++ jsToStringBase16 b ++ ", ")
        ++ ["0x" ++ jsToStringBase16 (data.getLast h) ++ "\n\x7d;\n\n"] := by
  have hl : data.getLast? = some (data.getLast h) := List.getLast?_eq_getLast data h
  unfold writeFileData
  rw [hl]
  rfl

theorem wfd_counts (fileName : String) (data : List Nat) (h : data ≠ []) :
    (writeFileData "arduino" fileName data).1.countP (fun c => isByteArrayDecl c) = 1
    ∧ (writeFileData "arduino" fileName data).1.countP (fun c => isServingUnit c) = 0
    ∧ (writeFileData "arduino" fileName data).1.countP (fun c => isRegisterStmt c) = 0
    ∧ (writeFileData "arduino" fileName data).1.countP (fun c => isRegisterOpener c) = 0 := by
  have hLen := preds_of_len_chunk (s := "const size_t " ++ formatName fileName
      ++ "_Length = " ++ toString data.length ++ ";\n")
    (l := (formatName fileName).data ++ (("_Length = " : String).data
      ++ ((toString data.length).data ++ (";\n" : String).data)))
    (by simp [String.data_append])
  have hOp := preds_of_array_opener (s := "const char " ++ formatName fileName
      ++ "[] PROGMEM = \x7b\n")
    (l := (formatName fileName).data ++ ("[] PROGMEM = \x7b\n" : String).data)
    (by simp [String.data_append])
  have hFin := preds_of_byte_chunk (s := "0x" ++ jsToStringBase16 (data.getLast h)
      ++ "\n\x7d;\n\n")
    (l := (jsToStringBase16 (data.getLast h)).data ++ ("\n\x7d;\n\n" : String).data)
    (by simp [String.data_append])
  have hMap : ∀ chunk ∈ data.dropLast.map (fun b => "0x" ++ jsToStringBase16 b ++ ", "),
      isByteArrayDecl chunk = false ∧ isServingUnit chunk = false
      ∧ isRegisterStmt chunk = false ∧ isRegisterOpener chunk = false := by
    intro chunk hch
    obtain ⟨b, _, hb⟩ := List.mem_map.mp hch
    rw [← hb]
    exact preds_of_byte_chunk (s := "0x" ++ jsToStringBase16 b ++ ", ")
      (l := (jsToStringBase16 b).data ++ (", " : String).data)
      (by simp [String.data_append])
  rw [writeFileData_chunks_eq fileName data h]
  refine ⟨?_, ?_, ?_, ?_⟩
  · have hmap0 : List.countP (fun c => isByteArrayDecl c)
        (data.dropLast.map (fun b => "0x" ++ jsToStringBase16 b ++ ", ")) = 0 :=
      List.countP_eq_zero.mpr (fun chunk hch => by
        rw [(hMap chunk hch).1]
        exact Bool.false_ne_true)
    rw [List.countP_append, List.countP_append, hmap0]
    simp [List.countP_cons, hLen.1, hOp.1, hFin.1]
  · have hmap0 : List.countP (fun c => isServingUnit c)
        (data.dropLast.map (fun b => "0x" ++ jsToStringBase16 b ++ ", ")) = 0 :=
      List.countP_eq_zero.mpr (fun chunk hch => by
        rw [(hMap chunk hch).2.1]
        exact Bool.false_ne_true)
    rw [List.countP_append, List.countP_append, hmap0]
    simp [List.countP_cons, hLen.2.1, hOp.2.1, hFin.2.1]
  · have hmap0 : List.countP (fun c => isRegisterStmt c)
        (data.dropLast.map (fun b => "0x" ++ jsToStringBase16 b ++ ", ")) = 0 :=
      List.countP_eq_zero.mpr (fun chunk hch => by
        rw [(hMap chunk hch).2.2.1]
        exact Bool.false_ne_true)
    rw [List.countP_append, List.countP_append, hmap0]
    simp [List.countP_cons, hLen.2.2.1, hOp.2.2.1, hFin.2.2.1]
  · have hmap0 : List.countP (fun c => isRegisterOpener c)
        (data.dropLast.map (fun b => "0x" ++ jsToStringBase16 b ++ ", ")) = 0 :=
      List.countP_eq_zero.mpr (fun chunk hch => by
        rw [(hMap chunk hch).2.2.2]
        exact Bool.false_ne_true)
    rw [List.countP_append, List.countP_append, hmap0]
    simp [List.countP_cons, hLen.2.2.2, hOp.2.2.2, hFin.2.2.2]

theorem sum_map_add {α : Type} (f g : α → Nat) (l : List α) :
    (l.map (fun x => f x + g x)).sum = (l.map f).sum + (l.map g).sum := by
  induction l with
  | nil => rfl
  | cons x rest ih =>
    simp only [List.map_cons, List.sum_cons, ih]
    omega

theorem wfn_counts (fileName : String) (m : String) :
    (writeFunctions "arduino" fileName (some m)).countP (fun c => isByteArrayDecl c) = 0
    ∧ (writeFunctions "arduino" fileName (some m)).countP (fun c => isServingUnit c) = 1
    ∧ (writeFunctions "arduino" fileName (some m)).countP (fun c => isRegisterStmt c) = 0
    ∧ (writeFunctions "arduino" fileName (some m)).countP (fun c => isRegisterOpener c) = 0 := by
  have hOpen := preds_of_serving_opener (formatName fileName)
  have hSend := preds_of_send_chunk
    (s := "  server.send_P(200, \"" ++ m ++ "\", " ++ formatName fileName ++ ", "
      ++ formatName fileName ++ "_Length);\n\x7d\n\n")
    (l := m.data ++ (("\", " : String).data ++ ((formatName fileName).data
      ++ ((", " : String).data ++ ((formatName fileName).data
        ++ ("_Length);\n\x7d\n\n" : String).data)))))
    (by simp [String.data_append])
  have hG1 : isByteArrayDecl "  server.sendHeader(\"Content-Encoding\", \"gzip\");\n" = false := by decide
  have hG2 : isServingUnit "  server.sendHeader(\"Content-Encoding\", \"gzip\");\n" = false := by decide
  have hG3 : isRegisterStmt "  server.sendHeader(\"Content-Encoding\", \"gzip\");\n" = false := by decide
  have hG4 : isRegisterOpener "  server.sendHeader(\"Content-Encoding\", \"gzip\");\n" = false := by decide
  unfold writeFunctions
  dsimp only
  rw [if_neg (by decide : ¬ (("arduino" : String) == "esp-idf") = true)]
  by_cases hgz : jsEndsWith fileName ".gz" = true
  · rw [if_pos hgz]
    refine ⟨?_, ?_, ?_, ?_⟩ <;>
      simp [List.countP_append, List.countP_cons, hOpen.1, hOpen.2.1, hOpen.2.2.1,
        hOpen.2.2.2, hSend.1, hSend.2.1, hSend.2.2.1, hSend.2.2.2, hG1, hG2, hG3, hG4]
  · rw [if_neg hgz]
    refine ⟨?_, ?_, ?_, ?_⟩ <;>
      simp [List.countP_append, List.countP_cons, hOpen.1, hOpen.2.1, hOpen.2.2.1,
        hOpen.2.2.2, hSend.1, hSend.2.1, hSend.2.2.1, hSend.2.2.2]

theorem register_group_counts (f : String) :
    ((if (jsSplitHead f ".gz" == "index.html") = true
      then ["  server.on(\"/\", " ++ formatName f ++ "Page);\n"] else [])
      ++ ["  server.on(\"/" ++ jsSplitHead f ".gz" ++ "\", " ++ formatName f
          ++ "Page);\n\x7d\n"]).countP (fun c => isRegisterStmt c)
      = 1 + (if (jsSplitHead f ".gz" == "index.html") = true then 1 else 0)
    ∧ ((if (jsSplitHead f ".gz" == "index.html") = true
      then ["  server.on(\"/\", " ++ formatName f ++ "Page);\n"] else [])
      ++ ["  server.on(\"/" ++ jsSplitHead f ".gz" ++ "\", " ++ formatName f
          ++ "Page);\n\x7d\n"]).countP (fun c => isByteArrayDecl c) = 0
    ∧ ((if (jsSplitHead f ".gz" == "index.html") = true
      then ["  server.on(\"/\", " ++ formatName f ++ "Page);\n"] else [])
      ++ ["  server.on(\"/" ++ jsSplitHead f ".gz" ++ "\", " ++ formatName f
          ++ "Page);\n\x7d\n"]).countP (fun c => isServingUnit c) = 0
    ∧ ((if (jsSplitHead f ".gz" == "index.html") = true
      then ["  server.on(\"/\", " ++ formatName f ++ "Page);\n"] else [])
      ++ ["  server.on(\"/" ++ jsSplitHead f ".gz" ++ "\", " ++ formatName f
          ++ "Page);\n\x7d\n"]).countP (fun c => isRegisterOpener c) = 0 := by
  have hRoot := preds_of_register_stmt
    (s := "  server.on(\"/\", " ++ formatName f ++ "Page);\n")
    (l := ['"', '/', '"', ',', ' '] ++ ((formatName f).data ++ ("Page);\n" : String).data))
    (by simp [String.data_append])
  have hMain := preds_of_register_stmt
    (s := "  server.on(\"/" ++ jsSplitHead f ".gz" ++ "\", " ++ formatName f ++ "Page);\n\x7d\n")
    (l := ['"', '/'] ++ ((jsSplitHead f ".gz").data ++ (("\", " : String).data
      ++ ((formatName f).data ++ ("Page);\n\x7d\n" : String).data))))
    (by simp [String.data_append])
  by_cases hw : (jsSplitHead f ".gz" == "index.html") = true
  · rw [if_pos hw, if_pos hw]
    refine ⟨?_, ?_, ?_, ?_⟩ <;>
      simp [List.countP_append, List.countP_cons, hRoot.1, hRoot.2.1, hRoot.2.2.1,
        hRoot.2.2.2, hMain.1, hMain.2.1, hMain.2.2.1, hMain.2.2.2]
  · rw [if_neg hw, if_neg hw]
    refine ⟨?_, ?_, ?_, ?_⟩ <;>
      simp [List.countP_append, List.countP_cons, hMain.1, hMain.2.1, hMain.2.2.1,
        hMain.2.2.2]

theorem register_counts (names : List String) :
    (writeRegisterFunction "arduino" names).countP (fun c => isByteArrayDecl c) = 0
    ∧ (writeRegisterFunction "arduino" names).countP (fun c => isServingUnit c) = 0
    ∧ (writeRegisterFunction "arduino" names).countP (fun c => isRegisterStmt c)
        = names.length + names.countP (fun f => jsSplitHead f ".gz" == "index.html")
    ∧ (writeRegisterFunction "arduino" names).countP (fun c => isRegisterOpener c) = 1 := by
  have hOp1 : isByteArrayDecl "void registerWebsite() \x7b\n" = false := by decide
  have hOp2 : isServingUnit "void registerWebsite() \x7b\n" = false := by decide
  have hOp3 : isRegisterStmt "void registerWebsite() \x7b\n" = false := by decide
  have hOp4 : isRegisterOpener "void registerWebsite() \x7b\n" = true := by decide
  unfold writeRegisterFunction
  rw [if_neg (by decide : ¬ (("arduino" : String) == "esp-idf") = true)]
  rw [List.singleton_append]
  refine ⟨?_, ?_, ?_, ?_⟩
  · rw [List.countP_cons, countP_flatMap]
    rw [List.map_congr_left (fun f _ => (register_group_counts f).2.1)]
    simp [hOp1, sum_map_const_one]
  · rw [List.countP_cons, countP_flatMap]
    rw [List.map_congr_left (fun f _ => (register_group_counts f).2.2.1)]
    simp [hOp2, sum_map_const_one]
  · rw [List.countP_cons, countP_flatMap]
    rw [List.map_congr_left (fun f _ => (register_group_counts f).1)]
    rw [sum_map_add (fun _ => 1) (fun f => if (jsSplitHead f ".gz" == "index.html") = true then 1 else 0)]
    rw [sum_map_const_one, sum_map_ite_eq_countP]
    simp [hOp3]
  · rw [List.countP_cons, countP_flatMap]
    rw [List.map_congr_left (fun f _ => (register_group_counts f).2.2.2)]
    simp [hOp4, sum_map_const_one]

theorem writeAllFileData_eq (assets : List SrcFile)
    (h : ∀ a ∈ assets, a.bytes ≠ []) :
    writeAllFileData "arduino" assets
      = (assets.flatMap (fun f => (writeFileData "arduino" f.name f.bytes).1), true) := by
  induction assets with
  | nil => rfl
  | cons a rest ih =>
    have ha : a.bytes ≠ [] := h a (List.mem_cons_self a rest)
    have hrest : ∀ x ∈ rest, x.bytes ≠ [] := fun x hx => h x (List.mem_cons_of_mem a hx)
    have hsnd : (writeFileData "arduino" a.name a.bytes).2 = true := by
      have hl : a.bytes.getLast? = some (a.bytes.getLast ha) :=
        List.getLast?_eq_getLast a.bytes ha
      unfold writeFileData
      rw [hl]
    rw [writeAllFileData]
    dsimp only
    rw [if_pos hsnd, ih hrest, List.flatMap_cons]

theorem sum_map_const_zero {α : Type} (l : List α) :
    (l.map (fun _ => (0 : Nat))).sum = 0 := by
  induction l with
  | nil => rfl
  | cons x rest ih =>
    rw [List.map_cons, List.sum_cons, ih]

/-- C5 (amended): for every deduplicated asset list whose assets all
have non-empty bytes and a resolved content type, the arduino run
completes and the generated chunks contain `n` byte-array declarations
and `n` route-serving units for `n` assets; the registration statements
number `n` plus one extra for each asset whose `split('.gz')[0]` equals
`index.html` (the additional `/` route); exactly one aggregate
registration function is emitted. -/
theorem main_completeness (assets : List SrcFile)
    (hbytes : ∀ a ∈ assets, a.bytes ≠ [])
    (hmime : ∀ a ∈ assets, a.mime ≠ none) :
    (mainChunks "arduino" assets).2 = true
    ∧ (mainChunks "arduino" assets).1.countP (fun c => isByteArrayDecl c) = assets.length
    ∧ (mainChunks "arduino" assets).1.countP (fun c => isServingUnit c) = assets.length
    ∧ (mainChunks "arduino" assets).1.countP (fun c => isRegisterStmt c)
        = assets.length + assets.countP (fun a => jsSplitHead a.name ".gz" == "index.html")
    ∧ (mainChunks "arduino" assets).1.countP (fun c => isRegisterOpener c) = 1 := by
  have hA1 : assets.map (fun x =>
        List.countP (fun c => isByteArrayDecl c) ((writeFileData "arduino" x.name x.bytes).1))
      = assets.map (fun _ => (1 : Nat)) :=
    List.map_congr_left (fun f hf => (wfd_counts f.name f.bytes (hbytes f hf)).1)
  have hA2 : assets.map (fun x =>
        List.countP (fun c => isServingUnit c) ((writeFileData "arduino" x.name x.bytes).1))
      = assets.map (fun _ => (0 : Nat)) :=
    List.map_congr_left (fun f hf => (wfd_counts f.name f.bytes (hbytes f hf)).2.1)
  have hA3 : assets.map (fun x =>
        List.countP (fun c => isRegisterStmt c) ((writeFileData "arduino" x.name x.bytes).1))
      = assets.map (fun _ => (0 : Nat)) :=
    List.map_congr_left (fun f hf => (wfd_counts f.name f.bytes (hbytes f hf)).2.2.1)
  have hA4 : assets.map (fun x =>
        List.countP (fun c => isRegisterOpener c) ((writeFileData "arduino" x.name x.bytes).1))
      = assets.map (fun _ => (0 : Nat)) :=
    List.map_congr_left (fun f hf => (wfd_counts f.name f.bytes (hbytes f hf)).2.2.2)
  have hsome : ∀ f ∈ assets, ∀ (p : String → Bool) (k : Nat),
      (∀ m : String, (writeFunctions "arduino" f.name (some m)).countP p = k) →
      (writeFunctions "arduino" f.name f.mime).countP p = k := by
    intro f hf p k hp
    obtain ⟨m, hm⟩ := Option.ne_none_iff_exists'.mp (hmime f hf)
    rw [hm]
    exact hp m
  have hB1 : assets.map (fun x =>
        List.countP (fun c => isByteArrayDecl c) (writeFunctions "arduino" x.name x.mime))
      = assets.map (fun _ => (0 : Nat)) :=
    List.map_congr_left (fun f hf =>
      hsome f hf _ 0 (fun m => (wfn_counts f.name m).1))
  have hB2 : assets.map (fun x =>
        List.countP (fun c => isServingUnit c) (writeFunctions "arduino" x.name x.mime))
      = assets.map (fun _ => (1 : Nat)) :=
    List.map_congr_left (fun f hf =>
      hsome f hf _ 1 (fun m => (wfn_counts f.name m).2.1))
  have hB3 : assets.map (fun x =>
        List.countP (fun c => isRegisterStmt c) (writeFunctions "arduino" x.name x.mime))
      = assets.map (fun _ => (0 : Nat)) :=
    List.map_congr_left (fun f hf =>
      hsome f hf _ 0 (fun m => (wfn_counts f.name m).2.2.1))
  have hB4 : assets.map (fun x =>
        List.countP (fun c => isRegisterOpener c) (writeFunctions "arduino" x.name x.mime))
      = assets.map (fun _ => (0 : Nat)) :=
    List.map_congr_left (fun f hf =>
      hsome f hf _ 0 (fun m => (wfn_counts f.name m).2.2.2))
  have hchunks : mainChunks "arduino" assets
      = (assets.flatMap (fun f => (writeFileData "arduino" f.name f.bytes).1)
          ++ assets.flatMap (fun f => writeFunctions "arduino" f.name f.mime)
          ++ writeRegisterFunction "arduino" (assets.map (fun f => f.name)), true) := by
    unfold mainChunks
    rw [writeAllFileData_eq assets hbytes]
    rfl
  rw [hchunks]
  refine ⟨rfl, ?_, ?_, ?_, ?_⟩
  · rw [show ((assets.flatMap (fun f => (writeFileData "arduino" f.name f.bytes).1)
        ++ assets.flatMap (fun f => writeFunctions "arduino" f.name f.mime)
        ++ writeRegisterFunction "arduino" (assets.map (fun f => f.name)), true)
          : List String × Bool).1
      = assets.flatMap (fun f => (writeFileData "arduino" f.name f.bytes).1)
        ++ assets.flatMap (fun f => writeFunctions "arduino" f.name f.mime)
        ++ writeRegisterFunction "arduino" (assets.map (fun f => f.name)) from rfl]
    rw [List.countP_append, List.countP_append, countP_flatMap, countP_flatMap]
    rw [hA1, hB1, sum_map_const_one, sum_map_const_zero, (register_counts _).1]
    omega
  · rw [List.countP_append, List.countP_append, countP_flatMap, countP_flatMap]
    rw [hA2, hB2, sum_map_const_zero, sum_map_const_one, (register_counts _).2.1]
    omega
  · rw [List.countP_append, List.countP_append, countP_flatMap, countP_flatMap]
    rw [hA3, hB3, sum_map_const_zero, (register_counts _).2.2.1]
    rw [List.length_map, List.countP_map]
    simp only [Nat.zero_add]
    rfl
  · rw [List.countP_append, List.countP_append, countP_flatMap, countP_flatMap]
    rw [hA4, hB4, sum_map_const_zero, (register_counts _).2.2.2]

/-- C5 witness: a two-asset list (a root `index.html` and a compressed
`app.js.gz`) yields 2 byte arrays, 2 serving units, 3 registration
statements (the extra root route), and one registration function. -/
theorem main_completeness_witness :
    ((∀ a ∈ ([⟨"index.html", some "text/html", [1]⟩,
          ⟨"app.js.gz", some "application/javascript", [2, 3]⟩] : List SrcFile),
        a.bytes ≠ [])
      ∧ ∀ a ∈ ([⟨"index.html", some "text/html", [1]⟩,
          ⟨"app.js.gz", some "application/javascript", [2, 3]⟩] : List SrcFile),
        a.mime ≠ none)
    ∧ ((mainChunks "arduino" [⟨"index.html", some "text/html", [1]⟩,
          ⟨"app.js.gz", some "application/javascript", [2, 3]⟩]).2 = true
      ∧ (mainChunks "arduino" [⟨"index.html", some "text/html", [1]⟩,
          ⟨"app.js.gz", some "application/javascript", [2, 3]⟩]).1.countP
            (fun c => isByteArrayDecl c)
          = ([⟨"index.html", some "text/html", [1]⟩,
              ⟨"app.js.gz", some "application/javascript", [2, 3]⟩] : List SrcFile).length
      ∧ (mainChunks "arduino" [⟨"index.html", some "text/html", [1]⟩,
          ⟨"app.js.gz", some "application/javascript", [2, 3]⟩]).1.countP
            (fun c => isServingUnit c)
          = ([⟨"index.html", some "text/html", [1]⟩,
              ⟨"app.js.gz", some "application/javascript", [2, 3]⟩] : List SrcFile).length
      ∧ (mainChunks "arduino" [⟨"index.html", some "text/html", [1]⟩,
          ⟨"app.js.gz", some "application/javascript", [2, 3]⟩]).1.countP
            (fun c => isRegisterStmt c)
          = ([⟨"index.html", some "text/html", [1]⟩,
              ⟨"app.js.gz", some "application/javascript", [2, 3]⟩] : List SrcFile).length
            + ([⟨"index.html", some "text/html", [1]⟩,
                ⟨"app.js.gz", some "application/javascript", [2, 3]⟩] : List SrcFile).countP
                (fun a => jsSplitHead a.name ".gz" == "index.html")
      ∧ (mainChunks "arduino" [⟨"index.html", some "text/html", [1]⟩,
          ⟨"app.js.gz", some "application/javascript", [2, 3]⟩]).1.countP
            (fun c => isRegisterOpener c) = 1) :=
  ⟨⟨by decide, by decide⟩,
    main_completeness [⟨"index.html", some "text/html", [1]⟩,
      ⟨"app.js.gz", some "application/javascript", [2, 3]⟩] (by decide) (by decide)⟩
